import Mathlib

/-!
Shallow embedding of `linear_classifier.py` (class `Linear`), a binary
perceptron classifier.  Python floats are modelled as rationals, numpy
arrays as lists of rationals (one list per row).  numpy's random
machinery is modelled by an explicit linear congruential stream:
`np.random.shuffle` consumes the *global* generator state (a `ℕ`
threaded through the calls), while `np.random.default_rng(seed)` is a
deterministic function of the seed alone; these are exactly the
properties of the library the program relies on.
-/

namespace LinearClassifier

/-- One step of the model of numpy's pseudo-random stream. -/
def lcgStep (n : ℕ) : ℕ := (1103515245 * n + 12345) % 2147483648

/-- Iterated stream advance. -/
def lcgIter : ℕ → ℕ → ℕ
  | 0, g => g
  | n + 1, g => lcgIter n (lcgStep g)

/-- A draw in `[0,1)` from the stream state (model of `rng.random()`). -/
def rngUnit (n : ℕ) : ℚ := (lcgStep n % 1000000 : ℕ) / 1000000

/-- Round to the nearest integer, ties to even: the rounding used both by
Python's built-in `round` and by `np.round`. -/
def roundHalfEven (q : ℚ) : ℤ :=
  if q - ⌊q⌋ < 1/2 then ⌊q⌋
  else if 1/2 < q - ⌊q⌋ then ⌊q⌋ + 1
  else if 2 ∣ ⌊q⌋ then ⌊q⌋ else ⌊q⌋ + 1

/-- `np.round(q, 3)`: round to 3 decimal digits. -/
def round3 (q : ℚ) : ℚ := (roundHalfEven (1000 * q) : ℚ) / 1000

theorem abs_roundHalfEven_sub (q : ℚ) : |(roundHalfEven q : ℚ) - q| ≤ 1/2 := by
  have hfl : (⌊q⌋ : ℚ) ≤ q := Int.floor_le q
  have hfu : q < ⌊q⌋ + 1 := Int.lt_floor_add_one q
  unfold roundHalfEven
  split
  · rw [abs_sub_comm, abs_of_nonneg (by linarith)]; linarith
  · split
    · push_cast
      rw [abs_of_nonneg (by linarith)]
      linarith
    · split <;> (first
        | (rw [abs_sub_comm, abs_of_nonneg (by linarith)]; linarith)
        | (push_cast; rw [abs_of_nonneg (by linarith)]; linarith))

theorem abs_round3_sub (q : ℚ) : |round3 q - q| ≤ 1/2000 := by
  have h := abs_roundHalfEven_sub (1000 * q)
  unfold round3
  have : (roundHalfEven (1000 * q) : ℚ) / 1000 - q
      = ((roundHalfEven (1000 * q) : ℚ) - 1000 * q) / 1000 := by ring
  rw [this, abs_div]
  rw [show |(1000 : ℚ)| = 1000 by norm_num]
  linarith [h]

/-- Per-row weighted sum `np.sum(weights * example)`. -/
def dotProd (w x : List ℚ) : ℚ := (List.zipWith (· * ·) w x).sum

/-- `numpy.max` over a nonempty list (model of `arr.max(axis=0)` per column);
0 on the empty list, a case numpy rejects. -/
def listMax : List ℚ → ℚ
  | [] => 0
  | [x] => x
  | x :: y :: xs => max x (listMax (y :: xs))

/-- `numpy.min` over a nonempty list; 0 on the empty list. -/
def listMin : List ℚ → ℚ
  | [] => 0
  | [x] => x
  | x :: y :: xs => min x (listMin (y :: xs))

theorem le_listMax {x : ℚ} : ∀ {l : List ℚ}, x ∈ l → x ≤ listMax l := by
  intro l
  induction l with
  | nil => intro h; cases h
  | cons a t ih =>
    intro h
    cases t with
    | nil =>
      rcases List.mem_singleton.mp h with rfl
      simp [listMax]
    | cons b t' =>
      rcases List.mem_cons.mp h with rfl | hmem
      · exact le_max_left _ _
      · exact le_trans (ih hmem) (le_max_right _ _)

theorem listMin_le {x : ℚ} : ∀ {l : List ℚ}, x ∈ l → listMin l ≤ x := by
  intro l
  induction l with
  | nil => intro h; cases h
  | cons a t ih =>
    intro h
    cases t with
    | nil =>
      rcases List.mem_singleton.mp h with rfl
      simp [listMin]
    | cons b t' =>
      rcases List.mem_cons.mp h with rfl | hmem
      · exact min_le_left _ _
      · exact le_trans (min_le_right _ _) (ih hmem)

/-- Values of column `j`, one per row (`self.data[:, j]`). -/
def colVals (data : List (List ℚ)) (j : ℕ) : List ℚ := data.map (fun r => r.getD j 0)

/-- `MAX = self.data.max(axis=0)` at column `j`. -/
def colMax (data : List (List ℚ)) (j : ℕ) : ℚ := listMax (colVals data j)

/-- `MIN = self.data.min(axis=0)` at column `j`. -/
def colMin (data : List (List ℚ)) (j : ℕ) : ℚ := listMin (colVals data j)

/-- Entry-wise normalization `(x - MIN) / (MAX - MIN)` for column `j`. -/
def normVal (data : List (List ℚ)) (j : ℕ) (x : ℚ) : ℚ :=
  (x - colMin data j) / (colMax data j - colMin data j)

/-- Map a function of the column index over a row, starting at index `j`. -/
def mapIdxFrom (f : ℕ → ℚ → ℚ) : ℕ → List ℚ → List ℚ
  | _, [] => []
  | j, x :: xs => f j x :: mapIdxFrom f (j + 1) xs

/-- `self.norm = (self.data - MIN) / (MAX - MIN)`: every column (label
column included) rescaled by its own min and max. -/
def normalizeData (data : List (List ℚ)) : List (List ℚ) :=
  data.map (fun r => mapIdxFrom (normVal data) 0 r)

/-- `np.append(arr=np.ones([len(norm),1]), values=norm, axis=1)`:
prepend the constant bias attribute 1.0 as column 0. -/
def withBias (rows : List (List ℚ)) : List (List ℚ) :=
  rows.map (fun r => (1 : ℚ) :: r)

/-- Model of `np.random.shuffle`: a Fisher-Yates style permutation driven
by the global stream state `g`.  The state is consumed once per element;
`n` is structural fuel, always called with `n = l.length`. -/
def shuffleAux {α : Type} [Inhabited α] : ℕ → ℕ → List α → List α
  | 0, _, _ => []
  | _ + 1, _, [] => []
  | n + 1, g, x :: xs =>
    let g' := lcgStep g
    let i := g' % (x :: xs).length
    (x :: xs).getD i x :: shuffleAux n g' ((x :: xs).eraseIdx i)

/-- `np.random.shuffle(l)` at global state `g`: the permuted list. -/
def shuffleGo {α : Type} [Inhabited α] (g : ℕ) (l : List α) : List α :=
  shuffleAux l.length g l

theorem getD_cons_eraseIdx_perm {α : Type} (d : α) :
    ∀ (l : List α) (i : ℕ), i < l.length →
      List.Perm (l.getD i d :: l.eraseIdx i) l := by
  intro l
  induction l with
  | nil => intro i h; simp at h
  | cons a t ih =>
    intro i h
    cases i with
    | zero => simp
    | succ i' =>
      have h' : i' < t.length := by simpa using h
      have hswap : List.Perm (t.getD i' d :: a :: t.eraseIdx i')
          (a :: t.getD i' d :: t.eraseIdx i') := List.Perm.swap _ _ _
      have : List.Perm (a :: t.getD i' d :: t.eraseIdx i') (a :: t) :=
        List.Perm.cons a (ih i' h')
      simpa using hswap.trans this

theorem shuffleAux_perm {α : Type} [Inhabited α] :
    ∀ (n : ℕ) (g : ℕ) (l : List α), l.length ≤ n →
      List.Perm (shuffleAux n g l) l := by
  intro n
  induction n with
  | zero =>
    intro g l hl
    have : l = [] := List.eq_nil_of_length_eq_zero (Nat.le_zero.mp hl)
    subst this
    simp [shuffleAux]
  | succ m ih =>
    intro g l hl
    cases l with
    | nil => simp [shuffleAux]
    | cons x xs =>
      have hi : lcgStep g % (x :: xs).length < (x :: xs).length :=
        Nat.mod_lt _ (by simp)
      have hlen : ((x :: xs).eraseIdx (lcgStep g % (x :: xs).length)).length ≤ m := by
        rw [List.length_eraseIdx]
        simp only [hi, if_pos]
        simp at hl ⊢
        omega
      exact (List.Perm.cons _ (ih _ _ hlen)).trans
        (getD_cons_eraseIdx_perm x (x :: xs) _ hi)

theorem shuffleGo_perm {α : Type} [Inhabited α] (g : ℕ) (l : List α) :
    List.Perm (shuffleGo g l) l :=
  shuffleAux_perm l.length g l le_rfl

/-- State of a `Linear` instance.  `threshold` is stored already scaled
by 100 (the constructor and `set_threshold` multiply the supplied
fraction by 100).  Rows of `norm` carry the bias column first and the
class label last. -/
structure Linear where
  training : ℚ
  threshold : ℚ
  eta : ℚ
  seed : Option ℤ
  max_epochs : ℕ
  norm : List (List ℚ)
  shuffled : List (List ℚ)
  trainSS : List (List ℚ)
  testSS : List (List ℚ)
  weights : List ℚ
deriving DecidableEq

/-- `self.norm.shape[1]`: column count, read off the first row. -/
def numCols (rows : List (List ℚ)) : ℕ := (rows.headD []).length

/-- Model of `np.random.default_rng(seed=seed).random(k)`: a deterministic
function of the seed alone; when no seed is supplied the generator is
seeded from fresh OS entropy, modelled by the extra `entropy` argument. -/
def drawWeights (seed : Option ℤ) (entropy : ℕ) (k : ℕ) : List ℚ :=
  let s0 := match seed with
    | some s => s.natAbs
    | none => entropy
  (List.range k).map (fun i => rngUnit (lcgIter i s0))

/-- `Linear.initialize(shuffle)`.  `g` is the global numpy stream state
consumed by `np.random.shuffle`; the advanced state is returned.
`self.shuffled = self.norm[:]` takes a numpy *view*, so the in-place
shuffle permutes `self.norm` itself: the embedding therefore updates
the `norm` field to the shuffled rows. -/
def initModel (g entropy : ℕ) (shuffle : Bool) (m : Linear) : Linear × ℕ :=
  if shuffle then
    let sh := shuffleGo g m.norm
    let trainInd := (roundHalfEven (m.training * (sh.length : ℚ))).toNat
    ({ m with
        norm := sh,
        shuffled := sh,
        trainSS := sh.take trainInd,
        testSS := sh.drop trainInd,
        weights := drawWeights m.seed entropy (numCols m.norm - 1) },
      lcgIter m.norm.length g)
  else
    ({ m with weights := drawWeights m.seed entropy (numCols m.norm - 1) }, g)

/-- `Linear.__init__`: normalize, prepend the bias column, scale the
threshold by 100, then initialize with shuffling. -/
def mkLinear (data : List (List ℚ)) (train threshold lr : ℚ) (seed : Option ℤ)
    (max_epochs : ℕ) (g entropy : ℕ) : Linear × ℕ :=
  initModel g entropy true
    { training := train
      threshold := threshold * 100
      eta := lr
      seed := seed
      max_epochs := max_epochs
      norm := withBias (normalizeData data)
      shuffled := []
      trainSS := []
      testSS := []
      weights := [] }

/-- `Linear.set_threshold`. -/
def set_threshold (t : ℚ) (m : Linear) : Linear := { m with threshold := t * 100 }

/-- A Python value passed as the `seed` argument of `reset`/`set_seed`. -/
inductive SeedArg
  | pynone
  | pyint (n : ℤ)
  | pystr (s : String)
  | pyfloat (q : ℚ)
deriving DecidableEq

/-- Python truthiness of a `SeedArg` (`if seed:` in `reset`). -/
def truthy : SeedArg → Bool
  | .pynone => false
  | .pyint n => decide (n ≠ 0)
  | .pystr s => decide (s ≠ "")
  | .pyfloat q => decide (q ≠ 0)

/-- `Linear.set_seed`: an `int` is stored; the string `'none'` (any
case) clears the seed; anything else raises `ValueError`.  The returned
flag records that `warnings.warn` ran (it follows the dispatch, so it
fires exactly on success). -/
def set_seed (arg : SeedArg) (m : Linear) : Except String (Linear × Bool) :=
  match arg with
  | .pyint n => .ok ({ m with seed := some n }, true)
  | .pystr s =>
    if s.toLower = "none" then .ok ({ m with seed := none }, true)
    else .error "ValueError"
  | _ => .error "ValueError"

/-- `Linear.reset(shuffle, seed)`: `if seed: self.set_seed(seed)`, then
`self.initialize(shuffle)`.  Returns the new model, the advanced global
stream state and whether a warning was emitted. -/
def reset (g entropy : ℕ) (shuffle : Bool) (arg : SeedArg) (m : Linear) :
    Except String (Linear × ℕ × Bool) :=
  if truthy arg then
    match set_seed arg m with
    | .error e => .error e
    | .ok (m', warn) =>
      let p := initModel g entropy shuffle m'
      .ok (p.1, p.2, warn)
  else
    let p := initModel g entropy shuffle m
    .ok (p.1, p.2, false)

/-- `Linear.run_model`: per example, 1 if the weighted sum is strictly
positive, else 0 (`(ws > 0).astype(int)`). -/
def run_model (w : List ℚ) (examples : List (List ℚ)) : List ℤ :=
  examples.map (fun ex => if 0 < dotProd w ex then 1 else 0)

/-- `ex[-1]`: the class label stored in the last column. -/
def lastCol (ex : List ℚ) : ℚ := ex.getLast?.getD 0

/-- The hypothesis `run_model` produces on the attribute part `ex[0:-1]`
of a labeled example, as the rational the label is compared against. -/
def hypOf (w : List ℚ) (ex : List ℚ) : ℚ :=
  if 0 < dotProd w ex.dropLast then 1 else 0

/-- `num_correct = np.sum(examples[:,-1] == h)`. -/
def numCorrect (w : List ℚ) (exs : List (List ℚ)) : ℕ :=
  (exs.filter (fun ex => decide (lastCol ex = hypOf w ex))).length

/-- `num_incorrect = np.sum(examples[:,-1] != h)`. -/
def numIncorrect (w : List ℚ) (exs : List (List ℚ)) : ℕ :=
  (exs.filter (fun ex => decide (¬ lastCol ex = hypOf w ex))).length

/-- `Linear.accuracy`: `np.round(((num_correct / len(examples)) * 100), 3)`. -/
def accuracy (w : List ℚ) (exs : List (List ℚ)) : ℚ :=
  round3 (((numCorrect w exs : ℚ) / (exs.length : ℚ)) * 100)

/-- `Linear.error`: `np.round(((num_incorrect / len(examples)) * 100), 3)`. -/
def error (w : List ℚ) (exs : List (List ℚ)) : ℚ :=
  round3 (((numIncorrect w exs : ℚ) / (exs.length : ℚ)) * 100)

/-- `Linear.test`: accuracy and error on the chosen subset. -/
def testModel (traindata : Bool) (m : Linear) : ℚ × ℚ :=
  let ds := if traindata then m.trainSS else m.testSS
  (accuracy m.weights ds, error m.weights ds)

/-- One online update (`train`'s inner loop body): run the model on the
single example, then `self.adjust_weights`, i.e.
`weights ← weights + eta * (tar - hyp) * att` componentwise. -/
def stepExample (eta : ℚ) (w : List ℚ) (ex : List ℚ) : List ℚ :=
  let att := ex.dropLast
  let tar := lastCol ex
  let hyp := hypOf w ex
  List.zipWith (fun wi ai => wi + eta * (tar - hyp) * ai) w att

/-- One epoch: the examples of the Training Subset are visited in subset
order and every update is applied before the next example is seen. -/
def runEpoch (eta : ℚ) (tss : List (List ℚ)) (w : List ℚ) : List ℚ :=
  tss.foldl (stepExample eta) w

/-- Mean of the last up-to-3 entries, `np.mean(train_accs[-3:])`. -/
def last3Mean (l : List ℚ) : ℚ :=
  let t := l.drop (l.length - 3)
  t.sum / (t.length : ℚ)

/-- Mutable state of `Linear.train`'s loop. -/
structure TrainState where
  weights : List ℚ
  epoch_num : ℕ
  train_accs : List ℚ
deriving DecidableEq

/-- Outcome of the training loop: `converged` carries the final state;
`nonConverged` models `sys.exit`, which carries no partial result. -/
inductive TrainResult
  | converged (s : TrainState)
  | nonConverged
deriving DecidableEq

/-- The state reached after one more epoch: weights updated online over
the whole Training Subset, epoch counter bumped, and the accuracy of the
new weights on the Training Subset appended to the history. -/
def epochNext (eta : ℚ) (tss : List (List ℚ)) (s : TrainState) : TrainState :=
  let w' := runEpoch eta tss s.weights
  ⟨w', s.epoch_num + 1, s.train_accs ++ [accuracy w' tss]⟩

/-- `Linear.train`'s `while` loop.  The stopping condition
`np.mean(train_accs[-3:]) < threshold` is checked first; inside the body
the epoch counter is incremented and then checked against `max_epochs`,
`sys.exit` being modelled by `TrainResult.nonConverged`. -/
def trainLoop (thr : ℚ) (maxE : ℕ) (eta : ℚ) (tss : List (List ℚ))
    (s : TrainState) : TrainResult :=
  if thr ≤ last3Mean s.train_accs then .converged s
  else if maxE < s.epoch_num + 1 then .nonConverged
  else trainLoop thr maxE eta tss (epochNext eta tss s)
termination_by maxE + 1 - s.epoch_num
decreasing_by
  simp only [epochNext]
  omega

/-- Number of evaluations of the stopping condition performed by
`trainLoop` from state `s` (each loop iteration evaluates it once, and
the final passing or budget-exceeded iteration counts too). -/
def trainLoopChecks (thr : ℚ) (maxE : ℕ) (eta : ℚ) (tss : List (List ℚ))
    (s : TrainState) : ℕ :=
  if thr ≤ last3Mean s.train_accs then 1
  else if maxE < s.epoch_num + 1 then 1
  else 1 + trainLoopChecks thr maxE eta tss (epochNext eta tss s)
termination_by maxE + 1 - s.epoch_num
decreasing_by
  simp only [epochNext]
  omega

/-- `Linear.train`: the loop is entered with `epoch_num = 0` and a
history holding the accuracy of the initial weights on the Training
Subset. -/
def trainModel (m : Linear) : TrainResult :=
  trainLoop m.threshold m.max_epochs m.eta m.trainSS
    ⟨m.weights, 0, [accuracy m.weights m.trainSS]⟩

/-- Stopping-condition evaluations of a whole `Linear.train` run. -/
def trainModelChecks (m : Linear) : ℕ :=
  trainLoopChecks m.threshold m.max_epochs m.eta m.trainSS
    ⟨m.weights, 0, [accuracy m.weights m.trainSS]⟩

/-! ### Helper lemmas -/

theorem trainLoop_stop {thr : ℚ} {maxE : ℕ} {eta : ℚ} {tss : List (List ℚ)}
    {s : TrainState} (h : thr ≤ last3Mean s.train_accs) :
    trainLoop thr maxE eta tss s = .converged s := by
  unfold trainLoop
  simp [h]

theorem trainLoop_fatal {thr : ℚ} {maxE : ℕ} {eta : ℚ} {tss : List (List ℚ)}
    {s : TrainState} (h : ¬ thr ≤ last3Mean s.train_accs)
    (h2 : maxE < s.epoch_num + 1) :
    trainLoop thr maxE eta tss s = .nonConverged := by
  unfold trainLoop
  simp [h, h2]

theorem trainLoop_converged_mean_aux (n : ℕ) :
    ∀ (thr : ℚ) (maxE : ℕ) (eta : ℚ) (tss : List (List ℚ)) (s s' : TrainState),
      maxE + 1 - s.epoch_num ≤ n →
      trainLoop thr maxE eta tss s = .converged s' →
      thr ≤ last3Mean s'.train_accs := by
  induction n with
  | zero =>
    intro thr maxE eta tss s s' hn heq
    unfold trainLoop at heq
    split at heq
    · cases heq
      assumption
    · split at heq
      · cases heq
      · omega
  | succ m ih =>
    intro thr maxE eta tss s s' hn heq
    unfold trainLoop at heq
    split at heq
    · cases heq
      assumption
    · split at heq
      · cases heq
      · refine ih thr maxE eta tss (epochNext eta tss s) s' ?_ heq
        simp only [epochNext]
        omega

theorem trainLoop_converged_mean {thr : ℚ} {maxE : ℕ} {eta : ℚ}
    {tss : List (List ℚ)} {s s' : TrainState}
    (heq : trainLoop thr maxE eta tss s = .converged s') :
    thr ≤ last3Mean s'.train_accs :=
  trainLoop_converged_mean_aux (maxE + 1 - s.epoch_num) thr maxE eta tss s s'
    le_rfl heq

theorem trainLoopChecks_le_aux (n : ℕ) :
    ∀ (thr : ℚ) (maxE : ℕ) (eta : ℚ) (tss : List (List ℚ)) (s : TrainState),
      maxE + 1 - s.epoch_num ≤ n → s.epoch_num ≤ maxE →
      trainLoopChecks thr maxE eta tss s ≤ maxE + 1 - s.epoch_num := by
  induction n with
  | zero =>
    intro thr maxE eta tss s hn he
    omega
  | succ m ih =>
    intro thr maxE eta tss s hn he
    unfold trainLoopChecks
    split
    · omega
    · split
      · omega
      · have hrec := ih thr maxE eta tss (epochNext eta tss s)
          (by simp only [epochNext]; omega) (by simp only [epochNext]; omega)
        simp only [epochNext] at hrec ⊢
        omega

theorem trainLoopChecks_le {thr : ℚ} {maxE : ℕ} {eta : ℚ}
    {tss : List (List ℚ)} {s : TrainState} (he : s.epoch_num ≤ maxE) :
    trainLoopChecks thr maxE eta tss s ≤ maxE + 1 - s.epoch_num :=
  trainLoopChecks_le_aux (maxE + 1 - s.epoch_num) thr maxE eta tss s le_rfl he

theorem zipWith_getD (f : ℚ → ℚ → ℚ) :
    ∀ (w a : List ℚ) (i : ℕ), i < w.length → w.length = a.length →
      (List.zipWith f w a).getD i 0 = f (w.getD i 0) (a.getD i 0) := by
  intro w
  induction w with
  | nil => intro a i hi _; simp at hi
  | cons x xs ih =>
    intro a i hi hl
    cases a with
    | nil => simp at hl
    | cons y ys =>
      cases i with
      | zero => simp
      | succ i' =>
        simp only [List.zipWith_cons_cons, List.getD_cons_succ]
        exact ih ys i' (by simpa using hi) (by simpa using hl)

theorem map_getD (f : List ℚ → ℤ) :
    ∀ (l : List (List ℚ)) (i : ℕ), i < l.length →
      (l.map f).getD i 0 = f (l.getD i []) := by
  intro l
  induction l with
  | nil => intro i hi; simp at hi
  | cons x xs ih =>
    intro i hi
    cases i with
    | zero => simp
    | succ i' =>
      simp only [List.map_cons, List.getD_cons_succ]
      exact ih i' (by simpa using hi)

theorem mapIdxFrom_getD (f : ℕ → ℚ → ℚ) :
    ∀ (r : List ℚ) (j k : ℕ), k < r.length →
      (mapIdxFrom f j r).getD k 0 = f (j + k) (r.getD k 0) := by
  intro r
  induction r with
  | nil => intro j k hk; simp at hk
  | cons x xs ih =>
    intro j k hk
    cases k with
    | zero => simp [mapIdxFrom]
    | succ k' =>
      simp only [mapIdxFrom, List.getD_cons_succ]
      rw [ih (j + 1) k' (by simpa using hk)]
      ring_nf

theorem numCorrect_add_numIncorrect (w : List ℚ) (exs : List (List ℚ)) :
    numCorrect w exs + numIncorrect w exs = exs.length := by
  unfold numCorrect numIncorrect
  have h := @List.length_eq_length_filter_add _ exs
    (fun ex => decide (lastCol ex = hypOf w ex))
  rw [h]
  congr 2
  apply List.filter_congr
  intro ex _
  simp [decide_not]

/-- A concrete instance used to exhibit behaviours on explicit inputs:
four bias-augmented labeled rows, training fraction 3/4, seed 7. -/
def sampleModel : Linear :=
  { training := 3/4
    threshold := 90
    eta := 1/10
    seed := some 7
    max_epochs := 100
    norm := [[1, 1, 0], [1, 0, 1], [1, 1, 1], [1, 0, 0]]
    shuffled := []
    trainSS := []
    testSS := []
    weights := [] }

/-! ### Claims -/

/-- C2: within an epoch the trainer folds the online update over the
Training Subset in order (each update is visible to the next example's
inference); each update replaces `w_i` by
`w_i + eta * (label - hypothesis) * attribute_i`; and on weights
`[-1, 1/2]`, bias-augmented example `[1, 1/5]` with label 1 and learning
rate `1/10`, the hypothesis is 0 and the updated weights are
`[-9/10, 13/25]` (= `[-0.9, 0.52]`). -/
theorem online_update_spec :
    (∀ (eta : ℚ) (tss : List (List ℚ)) (w : List ℚ),
      runEpoch eta tss w = tss.foldl (stepExample eta) w) ∧
    (∀ (eta : ℚ) (w ex : List ℚ) (i : ℕ),
      i < w.length → w.length = ex.dropLast.length →
      (stepExample eta w ex).getD i 0
        = w.getD i 0 + eta * (lastCol ex - hypOf w ex) * (ex.dropLast.getD i 0)) ∧
    hypOf [-1, 1/2] [1, 1/5, 1] = 0 ∧
    stepExample (1/10) [-1, 1/2] [1, 1/5, 1] = [-9/10, 13/25] := by
  refine ⟨fun _ _ _ => rfl, ?_, ?_, ?_⟩
  · intro eta w ex i hi hl
    simp only [stepExample]
    exact zipWith_getD _ w ex.dropLast i hi hl
  · norm_num [hypOf, dotProd]
  · norm_num [stepExample, hypOf, dotProd, lastCol]

/-- Witness for C2's conditional conjunct at concrete inputs. -/
theorem online_update_spec_witness :
    (stepExample (1/10) [-1, 1/2] [1, 1/5, 1]).getD 0 0
      = List.getD [-1, 1/2] 0 0
        + (1/10) * (lastCol [1, 1/5, 1] - hypOf [-1, 1/2] [1, 1/5, 1])
          * (List.dropLast [1, 1/5, 1]).getD 0 0 :=
  online_update_spec.2.1 (1/10) [-1, 1/2] [1, 1/5, 1] 0 (by decide) (by decide)

/-- C7: `run_model` returns, for each example, hypothesis 1 exactly when
the weighted sum of weights and attributes is strictly positive and 0
otherwise, and it is pure: a second call on the same inputs yields the
identical hypothesis list. -/
theorem run_model_spec :
    (∀ (w : List ℚ) (exs : List (List ℚ)) (i : ℕ),
      (∀ ex ∈ exs, ex.length = w.length) → i < exs.length →
      (run_model w exs).getD i 0
        = if 0 < dotProd w (exs.getD i []) then 1 else 0) ∧
    (∀ (w : List ℚ) (exs : List (List ℚ)), run_model w exs = run_model w exs) := by
  constructor
  · intro w exs i _ hi
    simp only [run_model]
    exact map_getD _ exs i hi
  · intro w exs
    rfl

/-- Witness for C7 at concrete inputs. -/
theorem run_model_spec_witness :
    (run_model [2] [[3]]).getD 0 0 = if 0 < dotProd [2] [3] then 1 else 0 :=
  run_model_spec.1 [2] [[3]] 0 (by decide) (by decide)

/-- C6: `accuracy` returns `100 * matches / count` rounded to 3 decimal
digits, `error` independently returns `100 * mismatches / count` rounded
to 3 decimal digits, and on a non-empty example set their sum deviates
from 100 by at most `1/1000`. -/
theorem accuracy_error_complementary (w : List ℚ) (exs : List (List ℚ))
    (h : exs ≠ []) :
    accuracy w exs = round3 (((numCorrect w exs : ℚ) / (exs.length : ℚ)) * 100) ∧
    error w exs = round3 (((numIncorrect w exs : ℚ) / (exs.length : ℚ)) * 100) ∧
    |accuracy w exs + error w exs - 100| ≤ 1/1000 := by
  refine ⟨rfl, rfl, ?_⟩
  have hn : (0 : ℚ) < (exs.length : ℚ) := by
    have := List.length_pos.mpr h
    exact_mod_cast this
  have hce : (numCorrect w exs : ℚ) + (numIncorrect w exs : ℚ) = (exs.length : ℚ) := by
    exact_mod_cast congrArg (Nat.cast : ℕ → ℚ) (numCorrect_add_numIncorrect w exs)
  have hsum : ((numCorrect w exs : ℚ) / (exs.length : ℚ)) * 100
      + ((numIncorrect w exs : ℚ) / (exs.length : ℚ)) * 100 = 100 := by
    field_simp
    linarith
  have h1 := abs_round3_sub (((numCorrect w exs : ℚ) / (exs.length : ℚ)) * 100)
  have h2 := abs_round3_sub (((numIncorrect w exs : ℚ) / (exs.length : ℚ)) * 100)
  have habs := abs_add
    (round3 (((numCorrect w exs : ℚ) / (exs.length : ℚ)) * 100)
      - ((numCorrect w exs : ℚ) / (exs.length : ℚ)) * 100)
    (round3 (((numIncorrect w exs : ℚ) / (exs.length : ℚ)) * 100)
      - ((numIncorrect w exs : ℚ) / (exs.length : ℚ)) * 100)
  have hre : accuracy w exs + error w exs - 100
      = (round3 (((numCorrect w exs : ℚ) / (exs.length : ℚ)) * 100)
          - ((numCorrect w exs : ℚ) / (exs.length : ℚ)) * 100)
        + (round3 (((numIncorrect w exs : ℚ) / (exs.length : ℚ)) * 100)
          - ((numIncorrect w exs : ℚ) / (exs.length : ℚ)) * 100) := by
    unfold accuracy error
    linarith
  rw [hre]
  calc |_ + _| ≤ _ := habs
    _ ≤ 1/1000 := by linarith

/-- Witness for C6 at a concrete non-empty example set. -/
theorem accuracy_error_complementary_witness :
    accuracy [1] [[1, 1], [1, 0]]
      = round3 (((numCorrect [1] [[1, 1], [1, 0]] : ℚ) / 2) * 100) ∧
    |accuracy [1] [[1, 1], [1, 0]] + error [1] [[1, 1], [1, 0]] - 100| ≤ 1/1000 := by
  have h := accuracy_error_complementary [1] [[1, 1], [1, 0]] (by decide)
  exact ⟨h.1, h.2.2⟩

/-- C9: for a column whose max differs from its min, every normalized
value lies in `[0, 1]`, the entry equal to the column minimum normalizes
to exactly 0, the entry equal to the maximum to exactly 1; entry `k` of
a normalized row is `normVal data k` of the raw entry; and the constant
bias 1.0 is prepended as column 0 of the Normalized Dataset. -/
theorem normalization_spec (data : List (List ℚ)) (j : ℕ) (row : List ℚ)
    (hrow : row ∈ data) (hlt : colMin data j < colMax data j) :
    (0 ≤ normVal data j (row.getD j 0) ∧ normVal data j (row.getD j 0) ≤ 1) ∧
    (row.getD j 0 = colMin data j → normVal data j (row.getD j 0) = 0) ∧
    (row.getD j 0 = colMax data j → normVal data j (row.getD j 0) = 1) ∧
    (∀ k, k < row.length →
      (mapIdxFrom (normVal data) 0 row).getD k 0 = normVal data k (row.getD k 0)) ∧
    normalizeData data = data.map (fun r => mapIdxFrom (normVal data) 0 r) ∧
    withBias (normalizeData data)
      = (normalizeData data).map (fun r => (1 : ℚ) :: r) := by
  have hx : row.getD j 0 ∈ colVals data j := List.mem_map_of_mem _ hrow
  have hlo : colMin data j ≤ row.getD j 0 := listMin_le hx
  have hhi : row.getD j 0 ≤ colMax data j := le_listMax hx
  have hd : 0 < colMax data j - colMin data j := by linarith
  refine ⟨⟨?_, ?_⟩, ?_, ?_, ?_, rfl, rfl⟩
  · exact div_nonneg (by linarith) (le_of_lt hd)
  · simp only [normVal]
    rw [div_le_one hd]
    linarith
  · intro he
    simp only [normVal]
    rw [he, sub_self, zero_div]
  · intro he
    simp only [normVal]
    rw [he, div_self (ne_of_gt hd)]
  · intro k hk
    rw [mapIdxFrom_getD _ row 0 k hk]
    simp

/-- Witness for C9 at a concrete dataset. -/
theorem normalization_spec_witness :
    0 ≤ normVal [[0], [2]] 0 (List.getD [(0 : ℚ)] 0 0) ∧
    (List.getD [(0 : ℚ)] 0 0 = colMin [[0], [2]] 0 →
      normVal [[0], [2]] 0 (List.getD [(0 : ℚ)] 0 0) = 0) := by
  have h := normalization_spec [[0], [2]] 0 [0] (by simp)
    (by norm_num [colMin, colMax, colVals, listMin, listMax])
  exact ⟨h.1.1, h.2.1⟩

/-- C1: the train loop returns `converged` exactly when the mean of the
last up-to-3 entries of the training-accuracy history (the whole history
when shorter) reaches the stored threshold; the window has `min 3 len`
entries; and the threshold supplied as a fraction at construction or via
`set_threshold` is stored multiplied by 100 before any comparison. -/
theorem converged_iff_trailing_mean :
    (∀ (thr : ℚ) (maxE : ℕ) (eta : ℚ) (tss : List (List ℚ)) (s s' : TrainState),
      trainLoop thr maxE eta tss s = .converged s' →
      thr ≤ last3Mean s'.train_accs) ∧
    (∀ (thr : ℚ) (maxE : ℕ) (eta : ℚ) (tss : List (List ℚ)) (s : TrainState),
      thr ≤ last3Mean s.train_accs →
      trainLoop thr maxE eta tss s = .converged s) ∧
    (∀ l : List ℚ, last3Mean l
      = (l.drop (l.length - 3)).sum / ((l.drop (l.length - 3)).length : ℚ)) ∧
    (∀ l : List ℚ, (l.drop (l.length - 3)).length = min 3 l.length) ∧
    (∀ (data : List (List ℚ)) (train th lr : ℚ) (seed : Option ℤ) (me g e : ℕ),
      ((mkLinear data train th lr seed me g e).1).threshold = th * 100) ∧
    (∀ (t : ℚ) (m : Linear), (set_threshold t m).threshold = t * 100) ∧
    (∀ m : Linear, trainModel m = trainLoop m.threshold m.max_epochs m.eta m.trainSS
      ⟨m.weights, 0, [accuracy m.weights m.trainSS]⟩) := by
  refine ⟨?_, ?_, fun l => rfl, ?_, fun data train th lr seed me g e => rfl,
    fun t m => rfl, fun m => rfl⟩
  · intro thr maxE eta tss s s' h
    exact trainLoop_converged_mean h
  · intro thr maxE eta tss s h
    exact trainLoop_stop h
  · intro l
    rw [List.length_drop]
    omega

/-- Witness for C1's conditional conjuncts at concrete inputs. -/
theorem converged_iff_trailing_mean_witness :
    trainLoop 50 10 (1/10) [] ⟨[], 0, [100]⟩ = .converged ⟨[], 0, [100]⟩ :=
  converged_iff_trailing_mean.2.1 50 10 (1/10) [] ⟨[], 0, [100]⟩
    (by norm_num [last3Mean])

/-- C3: a training run enters the loop with epoch counter 0, each
iteration increments it by exactly 1 before the budget check, exceeding
`max_epochs` produces the fatal `nonConverged` outcome (which carries no
partial result), and the run evaluates the stopping condition at most
`max_epochs + 1` times. -/
theorem epoch_budget_spec :
    (∀ m : Linear, trainModelChecks m ≤ m.max_epochs + 1) ∧
    (∀ (eta : ℚ) (tss : List (List ℚ)) (s : TrainState),
      (epochNext eta tss s).epoch_num = s.epoch_num + 1) ∧
    (∀ (thr : ℚ) (maxE : ℕ) (eta : ℚ) (tss : List (List ℚ)) (s : TrainState),
      ¬ thr ≤ last3Mean s.train_accs → maxE < s.epoch_num + 1 →
      trainLoop thr maxE eta tss s = .nonConverged) ∧
    (∀ m : Linear, trainModelChecks m
      = trainLoopChecks m.threshold m.max_epochs m.eta m.trainSS
          ⟨m.weights, 0, [accuracy m.weights m.trainSS]⟩) := by
  refine ⟨?_, fun eta tss s => rfl, ?_, fun m => rfl⟩
  · intro m
    have h := @trainLoopChecks_le m.threshold m.max_epochs m.eta m.trainSS
      ⟨m.weights, 0, [accuracy m.weights m.trainSS]⟩
      (Nat.zero_le m.max_epochs)
    simpa [trainModelChecks] using h
  · intro thr maxE eta tss s h1 h2
    exact trainLoop_fatal h1 h2

/-- Witness for C3's conditional conjunct at concrete inputs. -/
theorem epoch_budget_spec_witness :
    trainLoop 101 0 (1/10) [] ⟨[], 0, [0]⟩ = .nonConverged :=
  epoch_budget_spec.2.2.1 101 0 (1/10) [] ⟨[], 0, [0]⟩
    (by norm_num [last3Mean]) (by norm_num)

/-- C8: after initialize with shuffling, the Training Subset is the
first `round(train_fraction * N)` rows of the shuffled data, the Testing
Subset the remaining rows, and together (ignoring order) they are
exactly the rows of the pre-call Normalized Dataset. -/
theorem split_partition (m : Linear) (g e : ℕ)
    (_h1 : 0 < m.training) (_h2 : m.training < 1) :
    (initModel g e true m).1.trainSS
      = (initModel g e true m).1.shuffled.take
          ((roundHalfEven (m.training * (m.norm.length : ℚ))).toNat) ∧
    (initModel g e true m).1.testSS
      = (initModel g e true m).1.shuffled.drop
          ((roundHalfEven (m.training * (m.norm.length : ℚ))).toNat) ∧
    List.Perm
      ((initModel g e true m).1.trainSS ++ (initModel g e true m).1.testSS)
      m.norm := by
  have hlen : (shuffleGo g m.norm).length = m.norm.length :=
    (shuffleGo_perm g m.norm).length_eq
  refine ⟨?_, ?_, ?_⟩
  · show (shuffleGo g m.norm).take
        ((roundHalfEven (m.training * ((shuffleGo g m.norm).length : ℚ))).toNat)
      = (shuffleGo g m.norm).take
        ((roundHalfEven (m.training * (m.norm.length : ℚ))).toNat)
    rw [hlen]
  · show (shuffleGo g m.norm).drop
        ((roundHalfEven (m.training * ((shuffleGo g m.norm).length : ℚ))).toNat)
      = (shuffleGo g m.norm).drop
        ((roundHalfEven (m.training * (m.norm.length : ℚ))).toNat)
    rw [hlen]
  · show List.Perm
      ((shuffleGo g m.norm).take
          ((roundHalfEven (m.training * ((shuffleGo g m.norm).length : ℚ))).toNat)
        ++ (shuffleGo g m.norm).drop
          ((roundHalfEven (m.training * ((shuffleGo g m.norm).length : ℚ))).toNat))
      m.norm
    rw [List.take_append_drop]
    exact shuffleGo_perm g m.norm

/-- Witness for C8 at a concrete instance. -/
theorem split_partition_witness :
    List.Perm
      ((initModel 0 5 true sampleModel).1.trainSS
        ++ (initModel 0 5 true sampleModel).1.testSS)
      sampleModel.norm :=
  (split_partition sampleModel 0 5 (by norm_num [sampleModel])
    (by norm_num [sampleModel])).2.2

/-- C10: initialize-with-shuffle permutes the stored Normalized Dataset
in place (`self.norm[:]` is a numpy view, not a copy): afterwards the
`norm` field is the very shuffled array, its rows are a permutation of
the previous rows, and on a concrete input the resulting order differs
from the pre-shuffle order. -/
theorem norm_shuffled_in_place :
    (∀ (m : Linear) (g e : ℕ),
      (initModel g e true m).1.norm = (initModel g e true m).1.shuffled) ∧
    (∀ (m : Linear) (g e : ℕ),
      List.Perm ((initModel g e true m).1.norm) m.norm) ∧
    (initModel 0 5 true sampleModel).1.norm ≠ sampleModel.norm := by
  refine ⟨fun m g e => rfl, fun m g e => shuffleGo_perm g m.norm, ?_⟩
  norm_num [initModel, sampleModel, shuffleGo, shuffleAux, roundHalfEven,
    lcgStep, lcgIter]

/-- C4 (amended): two initializations with the same stored integer seed
produce identical initial weight vectors regardless of the global
shuffle stream state and of the OS entropy, because the weight generator
is freshly constructed from the seed alone. -/
theorem seeded_weight_draw_deterministic (m : Linear) (g g' e e' : ℕ) (n : ℤ)
    (h : m.seed = some n) :
    (initModel g e true m).1.weights = (initModel g' e' true m).1.weights := by
  simp [initModel, drawWeights, h]

/-- Witness for C4's amended theorem at a concrete instance. -/
theorem seeded_weight_draw_deterministic_witness :
    (initModel 0 5 true sampleModel).1.weights
      = (initModel 17 99 true sampleModel).1.weights :=
  seeded_weight_draw_deterministic sampleModel 0 17 5 99 7 rfl

/-- C4 counterexample: on `sampleModel` (seed 7), a first initialization
at global stream state 0 and a second one at the stream state the first
call left behind draw the same weights but produce different Training
Subsets: two separate initializations with the same seed and the same
data do not yield identical splits, because `np.random.shuffle` is not
driven by the stored seed. -/
theorem seeded_split_differs :
    (initModel 0 5 true sampleModel).1.weights
      = (initModel (initModel 0 5 true sampleModel).2 99 true sampleModel).1.weights ∧
    (initModel 0 5 true sampleModel).1.trainSS
      ≠ (initModel (initModel 0 5 true sampleModel).2 99 true sampleModel).1.trainSS := by
  refine ⟨rfl, ?_⟩
  norm_num [initModel, sampleModel, shuffleGo, shuffleAux, roundHalfEven,
    lcgStep, lcgIter]
  decide

/-- C5 counterexample: `reset` guards `set_seed` with Python truthiness,
so the integer seed 0 is silently ignored: on `sampleModel` (stored seed
7), `reset(shuffle, 0)` succeeds without any error and leaves the stored
seed at 7 instead of updating it to 0. -/
theorem reset_zero_seed_ignored :
    Except.map (fun p => p.1.seed) (reset 0 5 true (SeedArg.pyint 0) sampleModel)
      = Except.ok (some 7) ∧
    ¬ Except.map (fun p => p.1.seed) (reset 0 5 true (SeedArg.pyint 0) sampleModel)
      = Except.ok (some 0) := by
  have h1 : Except.map (fun p => p.1.seed)
      (reset 0 5 true (SeedArg.pyint 0) sampleModel)
      = (Except.ok (some 7) : Except String (Option ℤ)) := rfl
  refine ⟨h1, ?_⟩
  intro hcon
  rw [h1] at hcon
  injection hcon with h
  exact absurd h (by decide)

/-- C5 (amended): only truthy seed arguments reach `set_seed`: a nonzero
integer updates the stored seed (emitting a warning), a nonempty string
spelling 'none' in any case unsets it (emitting a warning), and any
other truthy value fails with `ValueError`; falsy arguments — the `None`
default and the integer 0 — skip `set_seed` entirely, so initialization
proceeds with the previous seed, without error or warning. -/
theorem reset_seed_dispatch :
    (∀ (g e : ℕ) (sh : Bool) (n : ℤ) (m : Linear), n ≠ 0 →
      reset g e sh (SeedArg.pyint n) m
        = .ok ((initModel g e sh { m with seed := some n }).1,
            (initModel g e sh { m with seed := some n }).2, true)) ∧
    (∀ (g e : ℕ) (sh : Bool) (s : String) (m : Linear),
      s ≠ "" → s.toLower = "none" →
      reset g e sh (SeedArg.pystr s) m
        = .ok ((initModel g e sh { m with seed := none }).1,
            (initModel g e sh { m with seed := none }).2, true)) ∧
    (∀ (g e : ℕ) (sh : Bool) (m : Linear),
      reset g e sh (SeedArg.pyint 0) m
        = .ok ((initModel g e sh m).1, (initModel g e sh m).2, false)) ∧
    (∀ (g e : ℕ) (sh : Bool) (m : Linear),
      reset g e sh SeedArg.pynone m
        = .ok ((initModel g e sh m).1, (initModel g e sh m).2, false)) ∧
    (∀ (g e : ℕ) (sh : Bool) (q : ℚ) (m : Linear), q ≠ 0 →
      reset g e sh (SeedArg.pyfloat q) m = .error "ValueError") ∧
    (∀ (g e : ℕ) (sh : Bool) (s : String) (m : Linear),
      s ≠ "" → ¬ s.toLower = "none" →
      reset g e sh (SeedArg.pystr s) m = .error "ValueError") := by
  refine ⟨?_, ?_, fun g e sh m => rfl, fun g e sh m => rfl, ?_, ?_⟩
  · intro g e sh n m hn
    simp [reset, truthy, set_seed, hn]
  · intro g e sh s m hs hlow
    simp [reset, truthy, set_seed, hs, hlow]
  · intro g e sh q m hq
    simp [reset, truthy, set_seed, hq]
  · intro g e sh s m hs hlow
    simp [reset, truthy, set_seed, hs, hlow]

/-- Witness for C5's amended theorem at concrete inputs. -/
theorem reset_seed_dispatch_witness :
    reset 0 5 true (SeedArg.pyint 3) sampleModel
      = .ok ((initModel 0 5 true { sampleModel with seed := some 3 }).1,
          (initModel 0 5 true { sampleModel with seed := some 3 }).2, true) :=
  reset_seed_dispatch.1 0 5 true 3 sampleModel (by decide)

end LinearClassifier
